import Mathlib

/-!
# Load balancer: backend pool, selection and dispatch

A shallow embedding of `main.go`: the `Backend` / `ServerPool` / `LoadBalancer`
data model, the two selection algorithms, `GetBackend`, `NewLoadBalancer` and
`LoadBalancer.ServeHTTP`.

Conventions of the embedding.

* The `uint64` cursor is a `Nat`; `atomic.AddUint64` reduces modulo `2 ^ 64`.
* Every operation returns the pool it leaves behind next to its outcome, so the
  state after a Go run-time panic is still visible (a panic inside an HTTP
  handler ends that request only; the pool is shared through a pointer).
* A Go run-time panic is an `Except.error` carrying the kind of panic.
* A `*Backend` is an `Option Backend`; `none` is the nil pointer.
* `math/rand` and `net/url` are standard-library code: the value drawn by
  `rand.Intn` and the function `url.Parse` are parameters.
* `log.Printf` lines are collected in a list.
* Concurrent callers are a schedule over the two instructions of
  `GetNextBackendIndex`: the atomic add on the shared cursor and the local modulo.
-/

namespace LoadBalancerGo

/-- The modulus of `uint64` arithmetic. -/
def uint64Size : Nat := 2 ^ 64

/-- The run-time panics the selection code can raise. -/
inductive Panic where
  /-- The message "runtime error: integer divide by zero". -/
  | integerDivideByZero
  /-- The message "invalid argument to Intn", raised by `rand.Intn n` for `n <= 0`. -/
  | invalidArgumentToIntn
  /-- The message "runtime error: index out of range". -/
  | indexOutOfRange
  deriving DecidableEq, Repr

deriving instance DecidableEq for Except

/-- A line written with `log.Printf`. -/
inductive LogEntry where
  /-- The warning "Warning: Unknown algorithm '%s'. Defaulting to round_robin." -/
  | unknownAlgorithm (algorithm : String)
  /-- The line "Proxying request to %s using %s algorithm". -/
  | proxying (url : String) (algorithm : String)
  deriving DecidableEq, Repr

/-- The handle `httputil.NewSingleHostReverseProxy target`. -/
structure ReverseProxy where
  target : String
  deriving DecidableEq, Repr

/-- One backend server: `type Backend struct`. -/
structure Backend where
  URL : String
  Alive : Bool
  ReverseProxy : ReverseProxy
  deriving DecidableEq, Repr

/-- The collection of backends and the round-robin cursor: `type ServerPool struct`. -/
structure ServerPool where
  backends : List (Option Backend)
  current : Nat
  deriving DecidableEq, Repr

/-- The new value stored and returned by `atomic.AddUint64(&v, delta)`. -/
def atomicAddUint64 (v delta : Nat) : Nat := (v + delta) % uint64Size

/-- The value of `rand.Intn(n)` when the generator draws `draw`: a panic for `n = 0`,
the drawn value otherwise (the library draws it from `[0, n)`). -/
def randIntn (n draw : Nat) : Except Panic Nat :=
  if n = 0 then .error .invalidArgumentToIntn else .ok draw

/-- The slice access `backends[idx]`. -/
def indexBackends (backends : List (Option Backend)) (idx : Nat) : Except Panic (Option Backend) :=
  match backends.get? idx with
  | some b => .ok b
  | none => .error .indexOutOfRange

/-- Go `func (s *ServerPool) AddBackend(backend *Backend)`. -/
def ServerPool.AddBackend (s : ServerPool) (backend : Option Backend) : ServerPool :=
  { s with backends := s.backends ++ [backend] }

/-- Go `func (s *ServerPool) GetNextBackendIndex() int`: the cursor is incremented first,
then reduced modulo the pool size. -/
def ServerPool.GetNextBackendIndex (s : ServerPool) : ServerPool × Except Panic Nat :=
  let v := atomicAddUint64 s.current 1
  let s1 : ServerPool := { s with current := v }
  if s.backends.length = 0 then (s1, .error .integerDivideByZero)
  else (s1, .ok (v % s.backends.length))

/-- Go `func (s *ServerPool) GetRandomBackendIndex() int`. -/
def ServerPool.GetRandomBackendIndex (s : ServerPool) (draw : Nat) : ServerPool × Except Panic Nat :=
  (s, randIntn s.backends.length draw)

/-- What a call of `GetBackend` leaves behind. -/
structure Selection where
  pool : ServerPool
  log : List LogEntry
  backend : Except Panic (Option Backend)
  deriving DecidableEq, Repr

/-- Go `func (s *ServerPool) GetBackend(algorithm string) *Backend`. -/
def ServerPool.GetBackend (s : ServerPool) (algorithm : String) (draw : Nat) : Selection :=
  if algorithm = "round_robin" then
    match s.GetNextBackendIndex with
    | (s1, .ok idx) => ⟨s1, [], indexBackends s1.backends idx⟩
    | (s1, .error p) => ⟨s1, [], .error p⟩
  else if algorithm = "random" then
    match s.GetRandomBackendIndex draw with
    | (s1, .ok idx) => ⟨s1, [], indexBackends s1.backends idx⟩
    | (s1, .error p) => ⟨s1, [], .error p⟩
  else
    match s.GetNextBackendIndex with
    | (s1, .ok idx) => ⟨s1, [.unknownAlgorithm algorithm], indexBackends s1.backends idx⟩
    | (s1, .error p) => ⟨s1, [.unknownAlgorithm algorithm], .error p⟩

/-- The HTTP handler of the load balancer: `type LoadBalancer struct`. -/
structure LoadBalancer where
  pool : ServerPool
  algorithm : String
  deriving DecidableEq, Repr

/-- An inbound request, as far as the dispatcher passes it on. -/
structure Request where
  method : String
  path : String
  deriving DecidableEq, Repr

/-- What the handler does with a request. -/
inductive Response where
  /-- The call `http.Error(w, body, status)`. -/
  | error (body : String) (status : Nat)
  /-- The call `backend.ReverseProxy.ServeHTTP(w, r)`. -/
  | proxied (backend : Backend) (r : Request)
  deriving DecidableEq, Repr

/-- The constant `http.StatusServiceUnavailable`. -/
def StatusServiceUnavailable : Nat := 503

/-- What a call of `ServeHTTP` leaves behind. -/
structure Served where
  lb : LoadBalancer
  log : List LogEntry
  response : Except Panic Response
  deriving DecidableEq, Repr

/-- Go `func (lb *LoadBalancer) ServeHTTP(w http.ResponseWriter, r *http.Request)`. -/
def LoadBalancer.ServeHTTP (lb : LoadBalancer) (r : Request) (draw : Nat) : Served :=
  let sel := lb.pool.GetBackend lb.algorithm draw
  let lb1 : LoadBalancer := { lb with pool := sel.pool }
  match sel.backend with
  | .error p => ⟨lb1, sel.log, .error p⟩
  | .ok none => ⟨lb1, sel.log, .ok (.error "Service Unavailable" StatusServiceUnavailable)⟩
  | .ok (some backend) =>
    if !backend.Alive then
      ⟨lb1, sel.log, .ok (.error "Service Unavailable" StatusServiceUnavailable)⟩
    else
      ⟨lb1, sel.log ++ [.proxying backend.URL lb.algorithm], .ok (.proxied backend r)⟩

/-- The `log.Fatalf` exit of `NewLoadBalancer`: "Failed to parse backend URL". -/
structure Fatal where
  urlStr : String
  deriving DecidableEq, Repr

/-- The loop of `NewLoadBalancer` over `backendURLs`; `parse` is `url.Parse`. -/
def NewLoadBalancer.addAll (parse : String → Option String) :
    List String → ServerPool → Except Fatal ServerPool
  | [], pool => .ok pool
  | urlStr :: rest, pool =>
    match parse urlStr with
    | none => .error ⟨urlStr⟩
    | some parsedURL =>
      NewLoadBalancer.addAll parse rest
        (pool.AddBackend (some { URL := parsedURL, Alive := true, ReverseProxy := ⟨parsedURL⟩ }))

/-- Go `func NewLoadBalancer(algorithm string, backendURLs []string) *LoadBalancer`. -/
def NewLoadBalancer (parse : String → Option String) (algorithm : String)
    (backendURLs : List String) : Except Fatal LoadBalancer :=
  match NewLoadBalancer.addAll parse backendURLs ⟨[], 0⟩ with
  | .error e => .error e
  | .ok pool => .ok { pool := pool, algorithm := algorithm }

/-- Sequential calls of `GetNextBackendIndex`: the pool left behind and the results in
call order. -/
def callGetNextBackendIndex : Nat → ServerPool → ServerPool × List (Except Panic Nat)
  | 0, s => (s, [])
  | k + 1, s =>
    let first := s.GetNextBackendIndex
    let rest := callGetNextBackendIndex k first.1
    (rest.1, first.2 :: rest.2)

/-- Sequential calls of `GetBackend`, one per pair of algorithm and random draw. -/
def callGetBackend : List (String × Nat) → ServerPool → ServerPool × List (Except Panic (Option Backend))
  | [], s => (s, [])
  | (algorithm, draw) :: rest, s =>
    let first := s.GetBackend algorithm draw
    let others := callGetBackend rest first.pool
    (others.1, first.backend :: others.2)

/-- Sequential requests through `ServeHTTP`, one per pair of request and random draw. -/
def serveAll : List (Request × Nat) → LoadBalancer → LoadBalancer × List (Except Panic Response)
  | [], lb => (lb, [])
  | (r, draw) :: rest, lb =>
    let first := lb.ServeHTTP r draw
    let others := serveAll rest first.lb
    (others.1, first.response :: others.2)

/-- The backend `NewLoadBalancer` builds for a parsed URL. -/
def freshBackend (parsedURL : String) : Backend :=
  { URL := parsedURL, Alive := true, ReverseProxy := ⟨parsedURL⟩ }

/-- A `GET /` request. -/
def getRoot : Request := ⟨"GET", "/"⟩

/-- A dead backend. -/
def deadBackend (url : String) : Backend :=
  { URL := url, Alive := false, ReverseProxy := ⟨url⟩ }

/-- The pool `[A, B, C]` of three live backends with the cursor at `c`. -/
def poolABC (c : Nat) : ServerPool :=
  ⟨[some (freshBackend "A"), some (freshBackend "B"), some (freshBackend "C")], c⟩

/-- A pool of five live backends with the cursor at `c`. -/
def poolOfFive (c : Nat) : ServerPool :=
  ⟨[some (freshBackend "A"), some (freshBackend "B"), some (freshBackend "C"),
    some (freshBackend "D"), some (freshBackend "E")], c⟩

/-- The pool `[A dead, B, C]` with the cursor at `c`, dispatched round-robin. -/
def lbDeadABC (c : Nat) : LoadBalancer :=
  ⟨⟨[some (deadBackend "A"), some (freshBackend "B"), some (freshBackend "C")], c⟩,
    "round_robin"⟩

/-- The pool `[A dead, B]` with the cursor at `c`, dispatched round-robin. -/
def lbDeadAB (c : Nat) : LoadBalancer :=
  ⟨⟨[some (deadBackend "A"), some (freshBackend "B")], c⟩, "round_robin"⟩

/-! ## Concurrent callers of `GetNextBackendIndex`

One call of `GetNextBackendIndex` is two instructions: the shared, atomic
`atomic.AddUint64(&s.current, 1)`, and the local `% uint64(len(s.backends))` on the value
that came back. A scheduler interleaves the instructions of any number of callers; each
caller runs its own calls one after the other. -/

/-- The instructions a scheduler picks from, each named by the caller that runs it. -/
inductive Instr where
  /-- The caller runs `atomic.AddUint64(&s.current, 1)` and keeps the value returned. -/
  | add (caller : Nat)
  /-- The caller reduces the value it holds modulo the pool size and returns. -/
  | ret (caller : Nat)
  deriving DecidableEq, Repr

/-- The second instruction of `GetNextBackendIndex` on the value `v` held by the caller:
the expression `int(v % uint64(len(s.backends)))`. -/
def modLen (backends : List (Option Backend)) (v : Nat) : Except Panic Nat :=
  if backends.length = 0 then .error .integerDivideByZero else .ok (v % backends.length)

/-- The pool shared by the callers, the calls in flight (caller, value held) and the calls
that have returned (caller, value held, result), both in the order they got there. -/
structure Interleaving where
  pool : ServerPool
  inflight : List (Nat × Nat)
  returned : List (Nat × Nat × Except Panic Nat)
  deriving DecidableEq, Repr

/-- One scheduled instruction. An `add` of a caller that is still inside a call, and a
`ret` of a caller that is inside no call, are not enabled and change nothing. -/
def Interleaving.step (cfg : Interleaving) : Instr → Interleaving
  | .add caller =>
    match cfg.inflight.find? (fun e => e.1 = caller) with
    | some _ => cfg
    | none =>
      let v := atomicAddUint64 cfg.pool.current 1
      { cfg with
        pool := { cfg.pool with current := v }
        inflight := cfg.inflight ++ [(caller, v)] }
  | .ret caller =>
    match cfg.inflight.find? (fun e => e.1 = caller) with
    | none => cfg
    | some e =>
      { cfg with
        inflight := cfg.inflight.eraseP (fun e => e.1 = caller)
        returned := cfg.returned ++ [(e.1, e.2, modLen cfg.pool.backends e.2)] }

/-- The run of a schedule. -/
def Interleaving.run (cfg : Interleaving) (schedule : List Instr) : Interleaving :=
  schedule.foldl Interleaving.step cfg

/-- The callers start on the pool `s` with no call begun. -/
def Interleaving.start (s : ServerPool) : Interleaving := ⟨s, [], []⟩

/-- The post-increment cursor values the calls begun so far have observed. -/
def Interleaving.values (cfg : Interleaving) : List Nat :=
  cfg.returned.map (fun r => r.2.1) ++ cfg.inflight.map (fun e => e.2)

/-- The results of the calls that have returned. -/
def Interleaving.indices (cfg : Interleaving) : List (Except Panic Nat) :=
  cfg.returned.map (fun r => r.2.2)

/-- What every run from the pool `⟨backends, c⟩` keeps true: the backend list is untouched,
the cursor counts the calls begun, the values observed are those of the consecutive cursor
values after `c`, and every result is its call's value modulo the pool size. -/
def Interleaving.Consistent (backends : List (Option Backend)) (c : Nat)
    (cfg : Interleaving) : Prop :=
  cfg.pool.backends = backends ∧
    cfg.pool.current % 2 ^ 64 = (c + cfg.values.length) % 2 ^ 64 ∧
    List.Perm cfg.values ((List.range cfg.values.length).map (fun i => (c + 1 + i) % 2 ^ 64)) ∧
    ∀ r ∈ cfg.returned, r.2.2 = modLen backends r.2.1

/-- Two callers whose calls overlap, repeated `k` times: caller `0` adds, caller `1` adds
and returns, caller `0` returns. -/
def overlappingRounds (k : Nat) : List Instr :=
  (List.replicate k [Instr.add 0, Instr.add 1, Instr.ret 1, Instr.ret 0]).flatten

/-! ## Round-robin selection -/

theorem GetNextBackendIndex_pool (s : ServerPool) :
    s.GetNextBackendIndex.1 = { s with current := (s.current + 1) % 2 ^ 64 } := by
  unfold ServerPool.GetNextBackendIndex atomicAddUint64 uint64Size
  split <;> rfl

theorem GetNextBackendIndex_ok (s : ServerPool) (hN : 0 < s.backends.length) :
    s.GetNextBackendIndex.2 = .ok (((s.current + 1) % 2 ^ 64) % s.backends.length) := by
  unfold ServerPool.GetNextBackendIndex atomicAddUint64 uint64Size
  rw [if_neg (by omega)]

theorem GetNextBackendIndex_empty (s : ServerPool) (hN : s.backends.length = 0) :
    s.GetNextBackendIndex.2 = .error .integerDivideByZero := by
  unfold ServerPool.GetNextBackendIndex
  rw [if_pos hN]

theorem callGetNextBackendIndex_results (K : Nat) (s : ServerPool)
    (hN : 0 < s.backends.length) :
    (callGetNextBackendIndex K s).2 =
      (List.range K).map
        (fun i => Except.ok (((s.current + 1 + i) % 2 ^ 64) % s.backends.length)) := by
  induction K generalizing s with
  | zero => rfl
  | succ k ih =>
    have hN1 : 0 < s.GetNextBackendIndex.1.backends.length := by
      rw [GetNextBackendIndex_pool]; exact hN
    show s.GetNextBackendIndex.2 :: (callGetNextBackendIndex k s.GetNextBackendIndex.1).2 = _
    rw [ih _ hN1, GetNextBackendIndex_ok s hN, GetNextBackendIndex_pool,
      List.range_succ_eq_map, List.map_cons, List.map_map]
    refine congrArg₂ _ rfl (List.map_congr_left ?_)
    intro i _
    show Except.ok ((((s.current + 1) % 2 ^ 64 + 1 + i) % 2 ^ 64) % s.backends.length)
      = Except.ok (((s.current + 1 + (i + 1)) % 2 ^ 64) % s.backends.length)
    congr 2
    omega

/-- C1, as stated, fails where the cursor wraps: on the pool `[A, B, C]` with the cursor at
`2 ^ 64 - 2`, two sequential calls of `GetNextBackendIndex` return `0` and `0`, not
`start` and `(start + 1) mod 3`. -/
theorem c1_wraparound_breaks_cycle :
    (callGetNextBackendIndex 2 (poolABC (2 ^ 64 - 2))).2 = [.ok 0, .ok 0] ∧
      ¬ ∃ start, (poolABC (2 ^ 64 - 2)).GetNextBackendIndex.2 = .ok start ∧
        (callGetNextBackendIndex 2 (poolABC (2 ^ 64 - 2))).2 =
          (List.range 2).map (fun i => Except.ok ((start + i) % 3)) := by
  have e1 : (poolABC (2 ^ 64 - 2)).GetNextBackendIndex.2 = .ok 0 := by decide
  have e2 : (callGetNextBackendIndex 2 (poolABC (2 ^ 64 - 2))).2 = [.ok 0, .ok 0] := by decide
  refine ⟨e2, ?_⟩
  rintro ⟨start, h1, h2⟩
  rw [e1] at h1
  injection h1 with h1
  subst h1
  rw [e2] at h2
  revert h2
  decide

/-- C1, amended: for a pool of `N >= 1` backends, every cursor value and every `K >= 1`
such that the cursor does not wrap past `2 ^ 64 - 1` between the first and the last of the
`K` calls, or such that `N` divides `2 ^ 64`, `K` sequential calls of `GetNextBackendIndex`
return exactly `(start + i) mod N` for `i = 0..K-1`, where `start` is the index returned
by the first call. -/
theorem c1_round_robin_sequence (s : ServerPool) (K : Nat)
    (hN : 1 ≤ s.backends.length)
    (hwrap : (s.current + 1) % 2 ^ 64 + K ≤ 2 ^ 64 ∨ s.backends.length ∣ 2 ^ 64) :
    ∃ start, s.GetNextBackendIndex.2 = .ok start ∧
      (callGetNextBackendIndex K s).2 =
        (List.range K).map (fun i => Except.ok ((start + i) % s.backends.length)) := by
  refine ⟨((s.current + 1) % 2 ^ 64) % s.backends.length, GetNextBackendIndex_ok s hN, ?_⟩
  rw [callGetNextBackendIndex_results K s hN]
  refine List.map_congr_left ?_
  intro i hi
  have hiK : i < K := List.mem_range.mp hi
  congr 1
  rcases hwrap with h | h
  · have e : (s.current + 1 + i) % 2 ^ 64 = (s.current + 1) % 2 ^ 64 + i := by omega
    rw [e, Nat.mod_add_mod]
  · rw [Nat.mod_mod_of_dvd _ h, Nat.mod_mod_of_dvd _ h, Nat.mod_add_mod]

/-- Witness for C1 amended: six calls on `[A, B, C]` from cursor `0`. -/
theorem c1_round_robin_sequence_witness :
    ∃ start, (poolABC 0).GetNextBackendIndex.2 = .ok start ∧
      (callGetNextBackendIndex 6 (poolABC 0)).2 =
        (List.range 6).map (fun i => Except.ok ((start + i) % (poolABC 0).backends.length)) :=
  c1_round_robin_sequence (poolABC 0) 6 (by decide) (Or.inl (by decide))

/-- C3, as stated, fails where the cursor wraps: on a pool of five backends with the cursor
at `2 ^ 64 - 2`, two directly consecutive calls both return position `0`. -/
theorem c3_same_position_twice :
    (poolOfFive (2 ^ 64 - 2)).GetNextBackendIndex.2 = .ok 0 ∧
      (poolOfFive (2 ^ 64 - 2)).GetNextBackendIndex.1.GetNextBackendIndex.2 = .ok 0 := by
  decide

/-- C3, amended: for a pool of `N > 1` backends and every cursor value, two directly
consecutive calls of `GetNextBackendIndex` both return a position, and the two positions
differ except exactly when the first call leaves the cursor at `2 ^ 64 - 1` (so that the
second call wraps it to `0`) and `N` divides `2 ^ 64 - 1`; in that case both calls return
position `0`. -/
theorem c3_consecutive_positions (s : ServerPool) (hN : 1 < s.backends.length) :
    ∃ i j, s.GetNextBackendIndex.2 = .ok i ∧
      s.GetNextBackendIndex.1.GetNextBackendIndex.2 = .ok j ∧
      (i ≠ j ↔ ¬ ((s.current + 1) % 2 ^ 64 = 2 ^ 64 - 1 ∧ s.backends.length ∣ 2 ^ 64 - 1)) ∧
      (i = j → i = 0 ∧ j = 0) := by
  have hN1 : 0 < s.GetNextBackendIndex.1.backends.length := by
    rw [GetNextBackendIndex_pool]; exact Nat.lt_of_succ_lt hN
  refine ⟨_, _, GetNextBackendIndex_ok s (Nat.lt_of_succ_lt hN),
    GetNextBackendIndex_ok _ hN1, ?_⟩
  rw [GetNextBackendIndex_pool]
  show (((s.current + 1) % 2 ^ 64) % s.backends.length
      ≠ (((s.current + 1) % 2 ^ 64 + 1) % 2 ^ 64) % s.backends.length ↔ _) ∧
    (((s.current + 1) % 2 ^ 64) % s.backends.length
      = (((s.current + 1) % 2 ^ 64 + 1) % 2 ^ 64) % s.backends.length → _)
  have hc : (s.current + 1) % 2 ^ 64 < 2 ^ 64 := Nat.mod_lt _ (by norm_num)
  generalize (s.current + 1) % 2 ^ 64 = c at hc ⊢
  generalize s.backends.length = N at hN ⊢
  by_cases hlast : c = 2 ^ 64 - 1
  · subst hlast
    have e : (2 ^ 64 - 1 + 1) % 2 ^ 64 = 0 := by norm_num
    rw [e, Nat.zero_mod, Nat.dvd_iff_mod_eq_zero]
    refine ⟨?_, fun h => ⟨h, rfl⟩⟩
    simp
  · have e : (c + 1) % 2 ^ 64 = c + 1 := Nat.mod_eq_of_lt (by omega)
    rw [e]
    have hne : c % N ≠ (c + 1) % N := by
      intro h
      have hdvd : N ∣ c + 1 - c := (Nat.modEq_iff_dvd' (Nat.le_succ c)).mp h
      have h1 : N ∣ 1 := by simpa using hdvd
      have := Nat.le_of_dvd Nat.one_pos h1
      omega
    exact ⟨⟨fun _ h => hlast h.1, fun _ => hne⟩, fun h => absurd h hne⟩

/-- Witness for C3 amended: the pool `[A, B, C]` with the cursor at `7`. -/
theorem c3_consecutive_positions_witness :
    1 < (poolABC 7).backends.length ∧
    ∃ i j, (poolABC 7).GetNextBackendIndex.2 = .ok i ∧
      (poolABC 7).GetNextBackendIndex.1.GetNextBackendIndex.2 = .ok j ∧
      (i ≠ j ↔ ¬ (((poolABC 7).current + 1) % 2 ^ 64 = 2 ^ 64 - 1 ∧
        (poolABC 7).backends.length ∣ 2 ^ 64 - 1)) ∧
      (i = j → i = 0 ∧ j = 0) :=
  ⟨by decide, c3_consecutive_positions (poolABC 7) (by decide)⟩

/-! ## Selection through `GetBackend` -/

theorem indexBackends_of_lt (backends : List (Option Backend)) (idx : Nat)
    (h : idx < backends.length) :
    ∃ p, backends.get? idx = some p ∧ indexBackends backends idx = .ok p ∧ p ∈ backends := by
  refine ⟨backends.get ⟨idx, h⟩, List.get?_eq_get h, ?_, List.get_mem _ _ _⟩
  unfold indexBackends
  rw [List.get?_eq_get h]

theorem GetBackend_round_robin (s : ServerPool) (draw : Nat) (hN : 0 < s.backends.length) :
    s.GetBackend "round_robin" draw =
      ⟨{ s with current := (s.current + 1) % 2 ^ 64 }, [],
        indexBackends s.backends (((s.current + 1) % 2 ^ 64) % s.backends.length)⟩ := by
  have h1 := GetNextBackendIndex_pool s
  have h2 := GetNextBackendIndex_ok s hN
  unfold ServerPool.GetBackend
  rw [if_pos rfl]
  split
  · rename_i s1 idx heq
    rw [heq] at h1 h2
    simp only at h1 h2
    injection h2 with h2
    subst h1 h2
    rfl
  · rename_i s1 p heq
    rw [heq] at h2
    cases h2

theorem GetBackend_unknown (s : ServerPool) (algorithm : String) (draw : Nat)
    (hrr : algorithm ≠ "round_robin") (hrand : algorithm ≠ "random") :
    s.GetBackend algorithm draw =
      { s.GetBackend "round_robin" draw with log := [.unknownAlgorithm algorithm] } := by
  unfold ServerPool.GetBackend
  rw [if_neg hrr, if_neg hrand, if_pos rfl]
  split <;> rfl

theorem GetBackend_random (s : ServerPool) (draw : Nat) (hN : 0 < s.backends.length) :
    s.GetBackend "random" draw = ⟨s, [], indexBackends s.backends draw⟩ := by
  unfold ServerPool.GetBackend ServerPool.GetRandomBackendIndex randIntn
  rw [if_neg (by decide), if_pos rfl, if_neg (by omega)]

theorem GetBackend_random_pool (s : ServerPool) (draw : Nat) :
    (s.GetBackend "random" draw).pool = s := by
  unfold ServerPool.GetBackend ServerPool.GetRandomBackendIndex randIntn
  rw [if_neg (by decide), if_pos rfl]
  split <;> (rename_i heq; exact (congrArg Prod.fst heq).symm)

theorem GetBackend_empty (c : Nat) (algorithm : String) (draw : Nat) :
    ((⟨[], c⟩ : ServerPool).GetBackend algorithm draw).backend =
      .error (if algorithm = "random" then .invalidArgumentToIntn else .integerDivideByZero) := by
  unfold ServerPool.GetBackend
  by_cases hrr : algorithm = "round_robin"
  · subst hrr
    rw [if_pos rfl, if_neg (by decide)]
    rfl
  · by_cases hrand : algorithm = "random"
    · subst hrand
      rfl
    · rw [if_neg hrr, if_neg hrand, if_neg hrand]
      rfl

/-- On a non-empty pool, every algorithm returns a member of the pool, the random one for
every draw inside the pool. -/
theorem GetBackend_mem (s : ServerPool) (algorithm : String) (draw : Nat)
    (hN : 0 < s.backends.length)
    (hdraw : algorithm = "random" → draw < s.backends.length) :
    ∃ p, (s.GetBackend algorithm draw).backend = .ok p ∧ p ∈ s.backends := by
  have hidx : ((s.current + 1) % 2 ^ 64) % s.backends.length < s.backends.length :=
    Nat.mod_lt _ hN
  by_cases hrr : algorithm = "round_robin"
  · subst hrr
    obtain ⟨p, _, hp, hmem⟩ := indexBackends_of_lt s.backends _ hidx
    exact ⟨p, by rw [GetBackend_round_robin s draw hN]; exact hp, hmem⟩
  · by_cases hrand : algorithm = "random"
    · obtain ⟨p, _, hp, hmem⟩ := indexBackends_of_lt s.backends _ (hdraw hrand)
      subst hrand
      exact ⟨p, by rw [GetBackend_random s draw hN]; exact hp, hmem⟩
    · obtain ⟨p, _, hp, hmem⟩ := indexBackends_of_lt s.backends _ hidx
      exact ⟨p, by rw [GetBackend_unknown s algorithm draw hrr hrand,
        GetBackend_round_robin s draw hN]; exact hp, hmem⟩

/-! ## Dispatch through `ServeHTTP` -/

theorem ServeHTTP_nil (lb : LoadBalancer) (r : Request) (draw : Nat)
    (hsel : (lb.pool.GetBackend lb.algorithm draw).backend = .ok none) :
    lb.ServeHTTP r draw =
      ⟨{ lb with pool := (lb.pool.GetBackend lb.algorithm draw).pool },
        (lb.pool.GetBackend lb.algorithm draw).log,
        .ok (.error "Service Unavailable" StatusServiceUnavailable)⟩ := by
  unfold LoadBalancer.ServeHTTP
  simp only [hsel]

theorem ServeHTTP_dead (lb : LoadBalancer) (r : Request) (draw : Nat) (b : Backend)
    (hsel : (lb.pool.GetBackend lb.algorithm draw).backend = .ok (some b))
    (hdead : b.Alive = false) :
    lb.ServeHTTP r draw =
      ⟨{ lb with pool := (lb.pool.GetBackend lb.algorithm draw).pool },
        (lb.pool.GetBackend lb.algorithm draw).log,
        .ok (.error "Service Unavailable" StatusServiceUnavailable)⟩ := by
  unfold LoadBalancer.ServeHTTP
  simp only [hsel, hdead]
  rfl

theorem ServeHTTP_alive (lb : LoadBalancer) (r : Request) (draw : Nat) (b : Backend)
    (hsel : (lb.pool.GetBackend lb.algorithm draw).backend = .ok (some b))
    (halive : b.Alive = true) :
    lb.ServeHTTP r draw =
      ⟨{ lb with pool := (lb.pool.GetBackend lb.algorithm draw).pool },
        (lb.pool.GetBackend lb.algorithm draw).log ++ [.proxying b.URL lb.algorithm],
        .ok (.proxied b r)⟩ := by
  unfold LoadBalancer.ServeHTTP
  simp only [hsel, halive]
  rfl

/-- C4: on a non-empty pool whose backends all have `Alive = false`, for every algorithm
string ("round_robin", "random" or unknown), every cursor value and every value drawn by
`rand.Intn` (a position of the pool), `ServeHTTP` answers with
`http.Error(w, "Service Unavailable", 503)` and does not call the `ReverseProxy` of any
backend. -/
theorem c4_all_dead_service_unavailable (lb : LoadBalancer) (r : Request) (draw : Nat)
    (hN : 0 < lb.pool.backends.length)
    (hdraw : lb.algorithm = "random" → draw < lb.pool.backends.length)
    (hdead : ∀ b, some b ∈ lb.pool.backends → b.Alive = false) :
    (lb.ServeHTTP r draw).response = .ok (.error "Service Unavailable" 503) ∧
      ∀ b r1, (lb.ServeHTTP r draw).response ≠ .ok (.proxied b r1) := by
  have key : (lb.ServeHTTP r draw).response = .ok (.error "Service Unavailable" 503) := by
    obtain ⟨p, hp, hmem⟩ := GetBackend_mem lb.pool lb.algorithm draw hN hdraw
    cases p with
    | none => rw [ServeHTTP_nil lb r draw hp]; rfl
    | some b => rw [ServeHTTP_dead lb r draw b hp (hdead b hmem)]; rfl
  refine ⟨key, ?_⟩
  intro b r1 h
  rw [key] at h
  cases h

/-- Witness for C4: the pool `[A dead, B dead]` under the random algorithm, draw `1`. -/
theorem c4_all_dead_service_unavailable_witness :
    (LoadBalancer.ServeHTTP ⟨⟨[some (deadBackend "A"), some (deadBackend "B")], 5⟩, "random"⟩
        getRoot 1).response = .ok (.error "Service Unavailable" 503) ∧
      ∀ b r1, (LoadBalancer.ServeHTTP
        ⟨⟨[some (deadBackend "A"), some (deadBackend "B")], 5⟩, "random"⟩
        getRoot 1).response ≠ .ok (.proxied b r1) :=
  c4_all_dead_service_unavailable
    ⟨⟨[some (deadBackend "A"), some (deadBackend "B")], 5⟩, "random"⟩ getRoot 1
    (by decide) (fun _ => by decide) (by
      intro b hb
      simp only [List.mem_cons, Option.some.injEq, List.mem_singleton] at hb
      rcases hb with rfl | rfl | hb
      · rfl
      · rfl
      · cases hb)

/-- C5, as stated, fails where the cursor wraps: on `[A dead, B, C]` with the cursor at
`2 ^ 64 - 2` the request lands on position `0` (A, dead) and is answered 503, and the next
request selects position `0` again and is answered 503 too; it is not served by position
`1`, the next one in the cycle. -/
theorem c5_next_request_same_position :
    (lbDeadABC (2 ^ 64 - 2)).pool.GetNextBackendIndex.2 = .ok 0 ∧
      ((lbDeadABC (2 ^ 64 - 2)).ServeHTTP getRoot 0).response
        = .ok (.error "Service Unavailable" 503) ∧
      ((lbDeadABC (2 ^ 64 - 2)).ServeHTTP getRoot 0).lb.pool.GetNextBackendIndex.2 = .ok 0 ∧
      (((lbDeadABC (2 ^ 64 - 2)).ServeHTTP getRoot 0).lb.ServeHTTP getRoot 0).response
        = .ok (.error "Service Unavailable" 503) := by
  decide

/-- C5, amended: on a non-empty pool under round-robin, if the backend at the position
selected for this request has `Alive = false`, then `ServeHTTP` answers 503 and forwards
to no backend, writes no log line, advances the cursor by exactly one modulo `2 ^ 64` and
leaves the backend list, every liveness flag and the algorithm unchanged; the next request
then selects the position of the next cursor value, which is the next position in the
cycle whenever the cursor does not wrap from `2 ^ 64 - 1` to `0` in between (or the pool
size divides `2 ^ 64`). -/
theorem c5_dead_pick_fails_outright (lb : LoadBalancer) (r : Request) (draw : Nat)
    (b : Backend)
    (hrr : lb.algorithm = "round_robin")
    (hN : 0 < lb.pool.backends.length)
    (hpick : lb.pool.backends.get?
      (((lb.pool.current + 1) % 2 ^ 64) % lb.pool.backends.length) = some (some b))
    (hdead : b.Alive = false) :
    (lb.ServeHTTP r draw).response = .ok (.error "Service Unavailable" 503) ∧
      (∀ b1 r1, (lb.ServeHTTP r draw).response ≠ .ok (.proxied b1 r1)) ∧
      (lb.ServeHTTP r draw).log = [] ∧
      (lb.ServeHTTP r draw).lb =
        { lb with pool := { lb.pool with current := (lb.pool.current + 1) % 2 ^ 64 } } ∧
      (lb.ServeHTTP r draw).lb.pool.GetNextBackendIndex.2 =
        .ok (((lb.pool.current + 1) % 2 ^ 64 + 1) % 2 ^ 64 % lb.pool.backends.length) ∧
      ((lb.pool.current + 1) % 2 ^ 64 ≠ 2 ^ 64 - 1 ∨ lb.pool.backends.length ∣ 2 ^ 64 →
        (lb.ServeHTTP r draw).lb.pool.GetNextBackendIndex.2 =
          .ok ((((lb.pool.current + 1) % 2 ^ 64) % lb.pool.backends.length + 1)
            % lb.pool.backends.length)) := by
  have hsel : lb.pool.GetBackend lb.algorithm draw =
      ⟨{ lb.pool with current := (lb.pool.current + 1) % 2 ^ 64 }, [], .ok (some b)⟩ := by
    rw [hrr, GetBackend_round_robin lb.pool draw hN]
    unfold indexBackends
    rw [hpick]
  have hserve : lb.ServeHTTP r draw =
      ⟨{ lb with pool := { lb.pool with current := (lb.pool.current + 1) % 2 ^ 64 } }, [],
        .ok (.error "Service Unavailable" 503)⟩ := by
    rw [ServeHTTP_dead lb r draw b (by rw [hsel]) hdead, hsel]
    rfl
  rw [hserve]
  have hnext := GetNextBackendIndex_ok
    { lb.pool with current := (lb.pool.current + 1) % 2 ^ 64 } hN
  refine ⟨rfl, fun b1 r1 h => (by cases h), rfl, rfl, hnext, ?_⟩
  intro hwrap
  refine hnext.trans ?_
  show Except.ok ((((lb.pool.current + 1) % 2 ^ 64 + 1) % 2 ^ 64) % lb.pool.backends.length) = _
  congr 1
  have hc : (lb.pool.current + 1) % 2 ^ 64 < 2 ^ 64 := Nat.mod_lt _ (by norm_num)
  rcases hwrap with h | h
  · have e : ((lb.pool.current + 1) % 2 ^ 64 + 1) % 2 ^ 64
        = (lb.pool.current + 1) % 2 ^ 64 + 1 := Nat.mod_eq_of_lt (by omega)
    rw [e, Nat.mod_add_mod]
  · rw [Nat.mod_mod_of_dvd _ h, Nat.mod_add_mod]

/-- Witness for C5 amended: `[A dead, B]`, cursor `1`: the request lands on A and is
answered 503; the next request selects position `1`, which is B. -/
theorem c5_dead_pick_fails_outright_witness :
    ((lbDeadAB 1).ServeHTTP getRoot 0).response = .ok (.error "Service Unavailable" 503) ∧
      ((lbDeadAB 1).ServeHTTP getRoot 0).lb = lbDeadAB 2 ∧
      ((lbDeadAB 1).ServeHTTP getRoot 0).lb.pool.GetNextBackendIndex.2 = .ok 1 :=
  have h := c5_dead_pick_fails_outright (lbDeadAB 1) getRoot 0 (deadBackend "A")
    (by decide) (by decide) (by decide) (by decide)
  ⟨h.1, h.2.2.2.1, h.2.2.2.2.2 (Or.inl (by decide))⟩

/-! ## Unknown strategies, the empty pool, random selection -/

/-- C6: for every algorithm string other than "round_robin" and "random" (the empty
string included), every non-empty pool and every cursor value, `GetBackend algorithm`
returns the same backend and leaves the same pool, cursor included, as
`GetBackend "round_robin"` from the same state, and it does not fail: the backend returned
is a member of the pool. The only difference is the warning written to the log. -/
theorem c6_unknown_strategy_is_round_robin (s : ServerPool) (algorithm : String)
    (draw : Nat)
    (hrr : algorithm ≠ "round_robin") (hrand : algorithm ≠ "random")
    (hN : 0 < s.backends.length) :
    (s.GetBackend algorithm draw).backend = (s.GetBackend "round_robin" draw).backend ∧
      (s.GetBackend algorithm draw).pool = (s.GetBackend "round_robin" draw).pool ∧
      (s.GetBackend algorithm draw).pool.current = (s.current + 1) % 2 ^ 64 ∧
      (∃ p, (s.GetBackend algorithm draw).backend = .ok p ∧ p ∈ s.backends) ∧
      (s.GetBackend algorithm draw).log = [.unknownAlgorithm algorithm] := by
  rw [GetBackend_unknown s algorithm draw hrr hrand]
  refine ⟨rfl, rfl, ?_, ?_, rfl⟩
  · rw [GetBackend_round_robin s draw hN]
  · have hidx : ((s.current + 1) % 2 ^ 64) % s.backends.length < s.backends.length :=
      Nat.mod_lt _ hN
    obtain ⟨p, _, hp, hmem⟩ := indexBackends_of_lt s.backends _ hidx
    exact ⟨p, by rw [GetBackend_round_robin s draw hN]; exact hp, hmem⟩

/-- Witness for C6: the empty algorithm string on `[A, B, C]` with the cursor at `4`. -/
theorem c6_unknown_strategy_is_round_robin_witness :
    ((poolABC 4).GetBackend "" 0).backend = ((poolABC 4).GetBackend "round_robin" 0).backend ∧
      ((poolABC 4).GetBackend "" 0).pool = ((poolABC 4).GetBackend "round_robin" 0).pool ∧
      ((poolABC 4).GetBackend "" 0).pool.current = ((poolABC 4).current + 1) % 2 ^ 64 ∧
      (∃ p, ((poolABC 4).GetBackend "" 0).backend = .ok p ∧ p ∈ (poolABC 4).backends) ∧
      ((poolABC 4).GetBackend "" 0).log = [.unknownAlgorithm ""] :=
  c6_unknown_strategy_is_round_robin (poolABC 4) "" 0 (by decide) (by decide) (by decide)

/-- C7, as stated, fails: the code has no empty-pool check and no error of its own for the
empty pool. On the empty pool with the cursor at `0`, "round_robin" ends in the run time's
"integer divide by zero" after the cursor was advanced to `1`, "random" ends in the
argument panic of `rand.Intn` with the cursor untouched; no single error condition is the
result of `GetBackend` on the empty pool for every algorithm. -/
theorem c7_no_distinguished_empty_pool_error :
    (⟨[], 0⟩ : ServerPool).GetBackend "round_robin" 0
        = ⟨⟨[], 1⟩, [], .error .integerDivideByZero⟩ ∧
      (⟨[], 0⟩ : ServerPool).GetBackend "random" 0
        = ⟨⟨[], 0⟩, [], .error .invalidArgumentToIntn⟩ ∧
      ¬ ∃ e, ∀ algorithm,
        ((⟨[], 0⟩ : ServerPool).GetBackend algorithm 0).backend = .error e := by
  refine ⟨by decide, by decide, ?_⟩
  rintro ⟨e, h⟩
  have hrr := h "round_robin"
  have hrand := h "random"
  rw [GetBackend_empty] at hrr hrand
  rw [if_neg (by decide)] at hrr
  rw [if_pos rfl] at hrand
  have := hrr.trans hrand.symm
  cases this

/-- C7, amended: on the empty pool, for every algorithm string, every cursor value and
every draw, `GetBackend` returns no backend and no index. It ends in a Go run-time panic
that no check of the selection code raises and that depends on the algorithm: for "random"
the panic "invalid argument to Intn" of `rand.Intn`, with the cursor untouched; for
"round_robin" and for every unknown algorithm the arithmetic panic "integer divide by
zero", raised after the cursor has been advanced by one modulo `2 ^ 64`. The backend list
stays empty. -/
theorem c7_empty_pool_panics (c : Nat) (algorithm : String) (draw : Nat) :
    (∀ p, ((⟨[], c⟩ : ServerPool).GetBackend algorithm draw).backend ≠ .ok p) ∧
      ((⟨[], c⟩ : ServerPool).GetBackend algorithm draw).backend =
        .error (if algorithm = "random" then .invalidArgumentToIntn
          else .integerDivideByZero) ∧
      ((⟨[], c⟩ : ServerPool).GetBackend algorithm draw).pool =
        ⟨[], if algorithm = "random" then c else (c + 1) % 2 ^ 64⟩ := by
  refine ⟨?_, GetBackend_empty c algorithm draw, ?_⟩
  · intro p h
    rw [GetBackend_empty c algorithm draw] at h
    cases h
  · by_cases hrand : algorithm = "random"
    · subst hrand
      rw [GetBackend_random_pool, if_pos rfl]
    · rw [if_neg hrand]
      by_cases hrr : algorithm = "round_robin"
      · subst hrr
        rfl
      · rw [GetBackend_unknown _ algorithm draw hrr hrand]
        rfl

/-- C9: for every pool, cursor value and draw inside the pool, `GetBackend "random"`
returns the backend at the drawn position and leaves the pool (cursor and backend list)
as it was; and in any sequence of `GetBackend` calls, the pool left behind is the one the
sequence without its "random" calls leaves behind, so a later round-robin selection
returns the same backend either way. -/
theorem c9_random_selection_is_pure (s : ServerPool) (draw : Nat)
    (hdraw : draw < s.backends.length) (calls : List (String × Nat)) :
    (∃ p, s.backends.get? draw = some p ∧
        s.GetBackend "random" draw = ⟨s, [], .ok p⟩) ∧
      (callGetBackend calls s).1 =
        (callGetBackend (calls.filter (fun call => call.1 ≠ "random")) s).1 ∧
      ∀ d, ((callGetBackend calls s).1.GetBackend "round_robin" d) =
        ((callGetBackend (calls.filter (fun call => call.1 ≠ "random")) s).1.GetBackend
          "round_robin" d) := by
  have hN : 0 < s.backends.length := Nat.lt_of_le_of_lt (Nat.zero_le _) hdraw
  have hpool : ∀ (cs : List (String × Nat)) (t : ServerPool),
      (callGetBackend cs t).1 =
        (callGetBackend (cs.filter (fun call => call.1 ≠ "random")) t).1 := by
    intro cs
    induction cs with
    | nil => intro t; rfl
    | cons call rest ih =>
      intro t
      obtain ⟨algorithm, d⟩ := call
      by_cases hrand : algorithm = "random"
      · subst hrand
        rw [List.filter_cons_of_neg (by simp)]
        show (callGetBackend rest (t.GetBackend "random" d).pool).1 = _
        rw [GetBackend_random_pool, ih]
      · rw [List.filter_cons_of_pos (by simpa using hrand)]
        show (callGetBackend rest (t.GetBackend algorithm d).pool).1
          = (callGetBackend _ (t.GetBackend algorithm d).pool).1
        exact ih _
  refine ⟨?_, hpool calls s, fun d => by rw [hpool calls s]⟩
  obtain ⟨p, hget, hp, _⟩ := indexBackends_of_lt s.backends draw hdraw
  exact ⟨p, hget, by rw [GetBackend_random s draw hN, hp]⟩

/-- Witness for C9: `[A, B, C]` with the cursor at `0`, draw `2`, and the calls
random, round-robin, random. -/
theorem c9_random_selection_is_pure_witness :
    (poolABC 0).GetBackend "random" 2 = ⟨poolABC 0, [], .ok (some (freshBackend "C"))⟩ ∧
      (callGetBackend [("random", 1), ("round_robin", 0), ("random", 2)] (poolABC 0)).1 =
        (callGetBackend [("round_robin", 0)] (poolABC 0)).1 :=
  have h := c9_random_selection_is_pure (poolABC 0) 2 (by decide)
    [("random", 1), ("round_robin", 0), ("random", 2)]
  ⟨by
    obtain ⟨p, hget, hsel⟩ := h.1
    have hp : p = some (freshBackend "C") := by
      have e : (poolABC 0).backends.get? 2 = some (some (freshBackend "C")) := by decide
      rw [e] at hget
      exact (Option.some.inj hget).symm
    rw [hsel, hp], h.2.1⟩

/-! ## Construction with `NewLoadBalancer` -/

theorem addAll_of_parsed (parse : String → Option String) (urls : List String)
    (hparse : ∀ u ∈ urls, ∃ parsed, parse u = some parsed) (pool : ServerPool) :
    NewLoadBalancer.addAll parse urls pool =
      .ok { pool with
        backends := pool.backends ++ urls.map (fun u => (parse u).map freshBackend) } := by
  induction urls generalizing pool with
  | nil => simp [NewLoadBalancer.addAll]
  | cons u rest ih =>
    obtain ⟨parsed, hu⟩ := hparse u (List.mem_cons_self u rest)
    have hrest : ∀ v ∈ rest, ∃ parsed, parse v = some parsed :=
      fun v hv => hparse v (List.mem_cons_of_mem u hv)
    unfold NewLoadBalancer.addAll
    simp only [hu]
    rw [ih hrest]
    simp [ServerPool.AddBackend, freshBackend, hu]

/-- C8, as stated, fails: for the empty list of backend URLs `NewLoadBalancer` returns a
`LoadBalancer`, and its pool has no backend; the first request through it ends in the
divide-by-zero panic. -/
theorem c8_empty_url_list_accepted :
    NewLoadBalancer (fun u => some u) "round_robin" [] = .ok ⟨⟨[], 0⟩, "round_robin"⟩ ∧
      (LoadBalancer.ServeHTTP ⟨⟨[], 0⟩, "round_robin"⟩ getRoot 0).response
        = .error .integerDivideByZero := by
  decide

/-- C8, amended: `NewLoadBalancer` makes no emptiness check. For every algorithm and every
list of URLs that `url.Parse` accepts, the empty list included, it returns a
`LoadBalancer` with that algorithm, the cursor at `0` and exactly one backend per URL
given, in the order given, each alive; so the pool it returns is non-empty exactly when the
list of URLs is. -/
theorem c8_one_backend_per_url (parse : String → Option String) (algorithm : String)
    (urls : List String) (hparse : ∀ u ∈ urls, ∃ parsed, parse u = some parsed) :
    ∃ lb, NewLoadBalancer parse algorithm urls = .ok lb ∧
      lb.algorithm = algorithm ∧
      lb.pool.current = 0 ∧
      lb.pool.backends = urls.map (fun u => (parse u).map freshBackend) ∧
      lb.pool.backends.length = urls.length ∧
      (1 ≤ lb.pool.backends.length ↔ urls ≠ []) := by
  refine ⟨⟨⟨urls.map (fun u => (parse u).map freshBackend), 0⟩, algorithm⟩, ?_, rfl, rfl, rfl,
    List.length_map _ _, ?_⟩
  · unfold NewLoadBalancer
    rw [addAll_of_parsed parse urls hparse]
    simp
  · show 1 ≤ (urls.map (fun u => (parse u).map freshBackend)).length ↔ urls ≠ []
    rw [List.length_map]
    cases urls <;> simp

/-- Witness for C8 amended: the three URLs of `main`. -/
theorem c8_one_backend_per_url_witness :
    ∃ lb, NewLoadBalancer (fun u => some u) "round_robin"
        ["http://localhost:8081", "http://localhost:8082", "http://localhost:8083"] = .ok lb ∧
      lb.algorithm = "round_robin" ∧
      lb.pool.current = 0 ∧
      lb.pool.backends =
        ["http://localhost:8081", "http://localhost:8082", "http://localhost:8083"].map
          (fun u => ((fun u => some u) u).map freshBackend) ∧
      lb.pool.backends.length = 3 ∧
      (1 ≤ lb.pool.backends.length ↔
        ["http://localhost:8081", "http://localhost:8082", "http://localhost:8083"] ≠ []) :=
  c8_one_backend_per_url (fun u => some u) "round_robin"
    ["http://localhost:8081", "http://localhost:8082", "http://localhost:8083"]
    (fun u _ => ⟨u, rfl⟩)

/-- C2, as stated, fails: on the balancer `NewLoadBalancer` builds from `[A, B, C]` with
"round_robin", the first of six sequential requests is forwarded to B, not to A; the six
requests are not dispatched in the order A, B, C, A, B, C. -/
theorem c2_first_request_goes_to_second_backend :
    NewLoadBalancer (fun u => some u) "round_robin" ["A", "B", "C"]
        = .ok ⟨poolABC 0, "round_robin"⟩ ∧
      (LoadBalancer.ServeHTTP ⟨poolABC 0, "round_robin"⟩ getRoot 0).response
        = .ok (.proxied (freshBackend "B") getRoot) ∧
      (serveAll (List.replicate 6 (getRoot, 0)) ⟨poolABC 0, "round_robin"⟩).2 ≠
        [.ok (.proxied (freshBackend "A") getRoot), .ok (.proxied (freshBackend "B") getRoot),
         .ok (.proxied (freshBackend "C") getRoot), .ok (.proxied (freshBackend "A") getRoot),
         .ok (.proxied (freshBackend "B") getRoot), .ok (.proxied (freshBackend "C") getRoot)] := by
  decide

/-- C2, amended: for a balancer built by `NewLoadBalancer` with "round_robin" from three
backend URLs `[A, B, C]` that `url.Parse` accepts, six sequential requests are forwarded
to the backends in the order B, C, A, B, C, A: the cursor starts at `0` and is incremented
before it is read, so the first request goes to the second backend of the list. -/
theorem c2_dispatch_order (parse : String → Option String) (a b c pa pb pc : String)
    (ha : parse a = some pa) (hb : parse b = some pb) (hc : parse c = some pc)
    (r1 r2 r3 r4 r5 r6 : Request) (d1 d2 d3 d4 d5 d6 : Nat) :
    ∃ lb, NewLoadBalancer parse "round_robin" [a, b, c] = .ok lb ∧
      (serveAll [(r1, d1), (r2, d2), (r3, d3), (r4, d4), (r5, d5), (r6, d6)] lb).2 =
        [.ok (.proxied (freshBackend pb) r1), .ok (.proxied (freshBackend pc) r2),
         .ok (.proxied (freshBackend pa) r3), .ok (.proxied (freshBackend pb) r4),
         .ok (.proxied (freshBackend pc) r5), .ok (.proxied (freshBackend pa) r6)] := by
  refine ⟨⟨⟨[some (freshBackend pa), some (freshBackend pb), some (freshBackend pc)], 0⟩,
    "round_robin"⟩, ?_, ?_⟩
  · simp [NewLoadBalancer, NewLoadBalancer.addAll, ha, hb, hc, ServerPool.AddBackend,
      freshBackend]
  · simp [serveAll, LoadBalancer.ServeHTTP, ServerPool.GetBackend,
      ServerPool.GetNextBackendIndex, atomicAddUint64, uint64Size, indexBackends, freshBackend]

/-- Witness for C2 amended: the URLs `A`, `B`, `C`, six `GET /` requests. -/
theorem c2_dispatch_order_witness :
    ∃ lb, NewLoadBalancer (fun u => some u) "round_robin" ["A", "B", "C"] = .ok lb ∧
      (serveAll [(getRoot, 0), (getRoot, 0), (getRoot, 0), (getRoot, 0), (getRoot, 0),
          (getRoot, 0)] lb).2 =
        [.ok (.proxied (freshBackend "B") getRoot), .ok (.proxied (freshBackend "C") getRoot),
         .ok (.proxied (freshBackend "A") getRoot), .ok (.proxied (freshBackend "B") getRoot),
         .ok (.proxied (freshBackend "C") getRoot), .ok (.proxied (freshBackend "A") getRoot)] :=
  c2_dispatch_order (fun u => some u) "A" "B" "C" "A" "B" "C" rfl rfl rfl
    getRoot getRoot getRoot getRoot getRoot getRoot 0 0 0 0 0 0

/-! ## Concurrent callers -/

/-- A call run without interruption is `GetNextBackendIndex`. -/
theorem Interleaving_single_call (s : ServerPool) (caller : Nat) :
    (Interleaving.run (Interleaving.start s) [.add caller, .ret caller]).pool
        = s.GetNextBackendIndex.1 ∧
      (Interleaving.run (Interleaving.start s) [.add caller, .ret caller]).indices
        = [s.GetNextBackendIndex.2] ∧
      (Interleaving.run (Interleaving.start s) [.add caller, .ret caller]).inflight = [] := by
  unfold ServerPool.GetNextBackendIndex
  by_cases h : s.backends.length = 0 <;>
    simp [Interleaving.run, Interleaving.start, Interleaving.step, Interleaving.indices,
      modLen, h]

theorem Interleaving_start_consistent (s : ServerPool) :
    (Interleaving.start s).Consistent s.backends s.current := by
  refine ⟨rfl, rfl, ?_, ?_⟩
  · exact List.Perm.refl _
  · intro r hr
    cases hr

theorem Interleaving_step_add_busy (cfg : Interleaving) (caller : Nat) (e : Nat × Nat)
    (h : cfg.inflight.find? (fun e => e.1 = caller) = some e) :
    cfg.step (.add caller) = cfg := by
  simp only [Interleaving.step, h]

theorem Interleaving_step_add_free (cfg : Interleaving) (caller : Nat)
    (h : cfg.inflight.find? (fun e => e.1 = caller) = none) :
    cfg.step (.add caller) =
      ⟨⟨cfg.pool.backends, atomicAddUint64 cfg.pool.current 1⟩,
        cfg.inflight ++ [(caller, atomicAddUint64 cfg.pool.current 1)], cfg.returned⟩ := by
  simp only [Interleaving.step, h]

theorem Interleaving_step_ret_idle (cfg : Interleaving) (caller : Nat)
    (h : cfg.inflight.find? (fun e => e.1 = caller) = none) :
    cfg.step (.ret caller) = cfg := by
  simp only [Interleaving.step, h]

theorem Interleaving_step_ret_busy (cfg : Interleaving) (caller : Nat) (e : Nat × Nat)
    (h : cfg.inflight.find? (fun e => e.1 = caller) = some e) :
    cfg.step (.ret caller) =
      ⟨cfg.pool, cfg.inflight.eraseP (fun e => e.1 = caller),
        cfg.returned ++ [(e.1, e.2, modLen cfg.pool.backends e.2)]⟩ := by
  simp only [Interleaving.step, h]

theorem perm_cons_eraseP_of_find? (p : Nat × Nat → Bool) (l : List (Nat × Nat))
    (e : Nat × Nat) (h : l.find? p = some e) : List.Perm l (e :: l.eraseP p) := by
  induction l with
  | nil => cases h
  | cons x rest ih =>
    by_cases hx : p x = true
    · rw [List.find?_cons_of_pos _ hx] at h
      rw [List.eraseP_cons_of_pos hx, Option.some.inj h]
    · rw [List.find?_cons_of_neg _ hx] at h
      rw [List.eraseP_cons_of_neg hx]
      exact ((ih h).cons x).trans (List.Perm.swap e x _)

theorem Interleaving_step_consistent (backends : List (Option Backend)) (c : Nat)
    (cfg : Interleaving) (i : Instr) (h : cfg.Consistent backends c) :
    (cfg.step i).Consistent backends c := by
  obtain ⟨hb, hcur, hperm, hres⟩ := h
  cases i with
  | add caller =>
    cases hfind : cfg.inflight.find? (fun e => e.1 = caller) with
    | some e =>
      rw [Interleaving_step_add_busy cfg caller e hfind]
      exact ⟨hb, hcur, hperm, hres⟩
    | none =>
      rw [Interleaving_step_add_free cfg caller hfind]
      have hvals : (Interleaving.values
          ⟨⟨cfg.pool.backends, atomicAddUint64 cfg.pool.current 1⟩,
            cfg.inflight ++ [(caller, atomicAddUint64 cfg.pool.current 1)], cfg.returned⟩)
          = cfg.values ++ [atomicAddUint64 cfg.pool.current 1] := by
        simp [Interleaving.values]
      have hv : atomicAddUint64 cfg.pool.current 1 = (c + 1 + cfg.values.length) % 2 ^ 64 := by
        unfold atomicAddUint64 uint64Size
        omega
      refine ⟨hb, ?_, ?_, hres⟩
      · rw [hvals, List.length_append, List.length_singleton]
        show atomicAddUint64 cfg.pool.current 1 % 2 ^ 64 = _
        rw [hv]
        omega
      · rw [hvals, List.length_append, List.length_singleton, List.range_succ,
          List.map_append, List.map_singleton, hv]
        exact List.Perm.append_right _ hperm
  | ret caller =>
    cases hfind : cfg.inflight.find? (fun e => e.1 = caller) with
    | none =>
      rw [Interleaving_step_ret_idle cfg caller hfind]
      exact ⟨hb, hcur, hperm, hres⟩
    | some e =>
      rw [Interleaving_step_ret_busy cfg caller e hfind]
      have hvals : List.Perm (Interleaving.values
          ⟨cfg.pool, cfg.inflight.eraseP (fun e => e.1 = caller),
            cfg.returned ++ [(e.1, e.2, modLen cfg.pool.backends e.2)]⟩)
          cfg.values := by
        simp only [Interleaving.values, List.map_append, List.map_singleton,
          List.append_assoc, List.singleton_append]
        refine List.Perm.append_left _ ?_
        have hp := ((perm_cons_eraseP_of_find? _ cfg.inflight e hfind).map
          (fun e : Nat × Nat => e.2)).symm
        rw [List.map_cons] at hp
        exact hp
      have hlen := hvals.length_eq
      refine ⟨hb, ?_, ?_, ?_⟩
      · rw [hlen]; exact hcur
      · rw [hlen]; exact hvals.trans hperm
      · intro r hr
        rcases List.mem_append.mp hr with hr | hr
        · exact hres r hr
        · rw [List.mem_singleton.mp hr, hb]

theorem Interleaving_run_consistent (backends : List (Option Backend)) (c : Nat)
    (schedule : List Instr) (cfg : Interleaving) (h : cfg.Consistent backends c) :
    (cfg.run schedule).Consistent backends c := by
  induction schedule generalizing cfg with
  | nil => exact h
  | cons i rest ih =>
    exact ih (cfg.step i) (Interleaving_step_consistent backends c cfg i h)

theorem Interleaving_run_append (cfg : Interleaving) (first rest : List Instr) :
    cfg.run (first ++ rest) = (cfg.run first).run rest := by
  unfold Interleaving.run
  rw [List.foldl_append]

/-- The values observed are pairwise distinct exactly as long as at most `2 ^ 64` calls
have begun. -/
theorem Interleaving_values_nodup_iff (backends : List (Option Backend)) (c : Nat)
    (cfg : Interleaving) (h : cfg.Consistent backends c) :
    cfg.values.Nodup ↔ cfg.values.length ≤ 2 ^ 64 := by
  obtain ⟨_, _, hperm, _⟩ := h
  rw [hperm.nodup_iff]
  constructor
  · intro hnodup
    by_contra hlen
    have hlt : 2 ^ 64 < cfg.values.length := Nat.lt_of_not_le hlen
    have h0 : 0 ∈ List.range cfg.values.length := List.mem_range.mpr (by omega)
    have hM : 2 ^ 64 ∈ List.range cfg.values.length := List.mem_range.mpr hlt
    have heq : (c + 1 + 0) % 2 ^ 64 = (c + 1 + 2 ^ 64) % 2 ^ 64 := by omega
    have := List.inj_on_of_nodup_map hnodup h0 hM heq
    omega
  · intro hlen
    refine List.Nodup.map_on ?_ (List.nodup_range _)
    intro x hx y hy hxy
    have hx1 := List.mem_range.mp hx
    have hy1 := List.mem_range.mp hy
    omega

/-- Once every call begun has returned, the results are, up to their order, the
consecutive cursor values after `c` modulo the pool size. -/
theorem Interleaving_indices_perm (backends : List (Option Backend)) (c : Nat)
    (cfg : Interleaving) (h : cfg.Consistent backends c) (hN : 1 ≤ backends.length)
    (hquiet : cfg.inflight = []) :
    List.Perm cfg.indices
      ((List.range cfg.returned.length).map
        (fun i => Except.ok (((c + 1 + i) % 2 ^ 64) % backends.length))) := by
  obtain ⟨_, _, hperm, hres⟩ := h
  have hvals : cfg.values = cfg.returned.map (fun r => r.2.1) := by
    unfold Interleaving.values
    rw [hquiet, List.map_nil, List.append_nil]
  have hlen : cfg.values.length = cfg.returned.length := by
    rw [hvals, List.length_map]
  have hmod : ∀ v, modLen backends v = Except.ok (v % backends.length) := by
    intro v
    unfold modLen
    rw [if_neg (by omega)]
  have hidx : cfg.indices = cfg.values.map (fun v => Except.ok (v % backends.length)) := by
    unfold Interleaving.indices
    rw [hvals, List.map_map]
    refine List.map_congr_left ?_
    intro r hr
    show r.2.2 = Except.ok (r.2.1 % backends.length)
    rw [hres r hr, hmod]
  rw [hidx, ← hlen]
  have := hperm.map (fun v => (Except.ok (v % backends.length) : Except Panic Nat))
  rw [List.map_map] at this
  exact this

/-- A round of two overlapping calls leaves no call in flight and adds two returns. -/
theorem overlappingRounds_quiet (k : Nat) (cfg : Interleaving) (hquiet : cfg.inflight = []) :
    (cfg.run (overlappingRounds k)).inflight = [] ∧
      (cfg.run (overlappingRounds k)).returned.length = cfg.returned.length + 2 * k := by
  induction k generalizing cfg with
  | zero => exact ⟨hquiet, rfl⟩
  | succ k ih =>
    have hsplit : overlappingRounds (k + 1)
        = [Instr.add 0, Instr.add 1, Instr.ret 1, Instr.ret 0] ++ overlappingRounds k := by
      unfold overlappingRounds
      rw [List.replicate_succ, List.flatten_cons]
    obtain ⟨pool, inflight, returned⟩ := cfg
    simp only at hquiet
    subst hquiet
    have hround : (Interleaving.run ⟨pool, [], returned⟩
          [Instr.add 0, Instr.add 1, Instr.ret 1, Instr.ret 0]).inflight = [] ∧
        (Interleaving.run ⟨pool, [], returned⟩
          [Instr.add 0, Instr.add 1, Instr.ret 1, Instr.ret 0]).returned.length
          = returned.length + 2 := by
      simp [Interleaving.run, Interleaving.step]
    rw [hsplit, Interleaving_run_append]
    obtain ⟨h1, h2⟩ := ih _ hround.1
    refine ⟨h1, ?_⟩
    show _ = returned.length + 2 * (k + 1)
    rw [h2, hround.2]
    omega

/-- C10, as stated, fails for "any number" of calls: the cursor has only `2 ^ 64` values.
On the pool `[A, B, C]` with the cursor at `0`, after `2 ^ 63 + 1` rounds of two
overlapping calls every call has returned, `2 ^ 64 + 2` of them, and two calls have
observed the same post-increment cursor value. -/
theorem c10_same_value_observed_twice :
    ((Interleaving.start (poolABC 0)).run (overlappingRounds (2 ^ 63 + 1))).inflight = [] ∧
      ((Interleaving.start (poolABC 0)).run (overlappingRounds (2 ^ 63 + 1))).returned.length
        = 2 ^ 64 + 2 ∧
      ¬ ((Interleaving.start (poolABC 0)).run (overlappingRounds (2 ^ 63 + 1))).values.Nodup := by
  obtain ⟨hquiet, hlen⟩ :=
    overlappingRounds_quiet (2 ^ 63 + 1) (Interleaving.start (poolABC 0)) rfl
  have hlen1 :
      ((Interleaving.start (poolABC 0)).run (overlappingRounds (2 ^ 63 + 1))).returned.length
        = 2 ^ 64 + 2 := by
    rw [hlen]
    show 0 + 2 * (2 ^ 63 + 1) = 2 ^ 64 + 2
    norm_num
  have hcons := Interleaving_run_consistent (poolABC 0).backends (poolABC 0).current
    (overlappingRounds (2 ^ 63 + 1)) (Interleaving.start (poolABC 0))
    (Interleaving_start_consistent (poolABC 0))
  refine ⟨hquiet, hlen1, ?_⟩
  rw [Interleaving_values_nodup_iff _ _ _ hcons]
  unfold Interleaving.values
  rw [hquiet, List.map_nil, List.append_nil, List.length_map, hlen1]
  norm_num

/-- C10, amended: model the callers as an arbitrary schedule of the two instructions of
`GetNextBackendIndex` (the atomic add, then the local modulo) on one pool of `N >= 1`
backends with the cursor at `c`. Under every schedule, the post-increment cursor values
observed by the calls begun so far are, up to their order, the consecutive cursor values
`(c + 1 + i) mod 2 ^ 64`, `i = 0..K-1`; no two calls observe the same value exactly as
long as at most `2 ^ 64` calls have begun; and once every call begun has returned, the
multiset of the `K` indices returned is that of these `K` consecutive cursor values taken
modulo `N`. -/
theorem c10_interleaved_calls (s : ServerPool) (schedule : List Instr)
    (hN : 1 ≤ s.backends.length) :
    (((Interleaving.start s).run schedule).values.Nodup ↔
        ((Interleaving.start s).run schedule).values.length ≤ 2 ^ 64) ∧
      List.Perm ((Interleaving.start s).run schedule).values
        ((List.range ((Interleaving.start s).run schedule).values.length).map
          (fun i => (s.current + 1 + i) % 2 ^ 64)) ∧
      (((Interleaving.start s).run schedule).inflight = [] →
        List.Perm ((Interleaving.start s).run schedule).indices
          ((List.range ((Interleaving.start s).run schedule).returned.length).map
            (fun i => Except.ok (((s.current + 1 + i) % 2 ^ 64) % s.backends.length)))) := by
  have hcons := Interleaving_run_consistent s.backends s.current schedule
    (Interleaving.start s) (Interleaving_start_consistent s)
  exact ⟨Interleaving_values_nodup_iff _ _ _ hcons, hcons.2.2.1,
    fun hquiet => Interleaving_indices_perm _ _ _ hcons hN hquiet⟩

/-- Witness for C10 amended: three callers on `[A, B, C]` from cursor `0`; all three add
before any returns, and they return in the order 2, 0, 1. -/
theorem c10_interleaved_calls_witness :
    ((Interleaving.start (poolABC 0)).run
        [.add 0, .add 1, .add 2, .ret 2, .ret 0, .ret 1]).inflight = [] ∧
      ((Interleaving.start (poolABC 0)).run
        [.add 0, .add 1, .add 2, .ret 2, .ret 0, .ret 1]).indices = [.ok 0, .ok 1, .ok 2] ∧
      ((Interleaving.start (poolABC 0)).run
        [.add 0, .add 1, .add 2, .ret 2, .ret 0, .ret 1]).values.Nodup ∧
      List.Perm ((Interleaving.start (poolABC 0)).run
          [.add 0, .add 1, .add 2, .ret 2, .ret 0, .ret 1]).indices
        ((List.range 3).map
          (fun i => Except.ok ((((poolABC 0).current + 1 + i) % 2 ^ 64)
            % (poolABC 0).backends.length))) :=
  have h := c10_interleaved_calls (poolABC 0)
    [.add 0, .add 1, .add 2, .ret 2, .ret 0, .ret 1] (by decide)
  ⟨by decide, by decide, h.1.mpr (by decide), h.2.2 (by decide)⟩

end LoadBalancerGo
